import Mathlib

/-!
Verification of the quirky-thoughts article CRUD service (src/main.go).

The program is a three-layer CRUD pipeline: an in-memory repository over
`map[string]Article`, a service layer adding a no-duplicate-insert rule,
and an HTTP transport. We embed the Go code shallowly:

* the Go map `map[string]Article` becomes an association list
  `List (String × Article)` with map semantics (`mapGet`, `mapSet`,
  `mapDelete`);
* `time.Time` becomes an integer timestamp (only structural equality of
  articles matters to the properties proved here);
* Go's `error` results become `Option GoError`;
* each HTTP handler becomes a pure function from the decoded request to
  the list of response writes it performs, the article it passes to the
  service, and the resulting repository state.
-/

namespace QuirkyThoughts

/-- The `Article` struct of src/main.go: id, title, tags, content and
publish timestamp (`time.Time`, modelled as an integer instant). -/
structure Article where
  id : String
  title : String
  tags : List String
  content : String
  publishAt : Int
deriving DecidableEq, Repr

/-- The two error values the program creates: `ErrArticleNotFound` and the
`"article already exists"` error made in `articleSvc.AddArticle`. -/
inductive GoError where
  | articleNotFound
  | articleAlreadyExists
deriving DecidableEq, Repr

/-- Lookup in the association-list model of `map[string]Article`. -/
def mapGet : List (String × Article) → String → Option Article
  | [], _ => none
  | (k', v) :: rest, k => if k' = k then some v else mapGet rest k

/-- Assignment `m[k] = v` in the association-list model: replaces the
entry at `k` if present, otherwise appends a new entry. -/
def mapSet : List (String × Article) → String → Article → List (String × Article)
  | [], k, v => [(k, v)]
  | (k', v') :: rest, k, v =>
      if k' = k then (k, v) :: rest else (k', v') :: mapSet rest k v

/-- `delete(m, k)` in the association-list model: removes every entry
stored at key `k`. -/
def mapDelete : List (String × Article) → String → List (String × Article)
  | [], _ => []
  | (k', v') :: rest, k =>
      if k' = k then mapDelete rest k else (k', v') :: mapDelete rest k

/-- The `inMemoryRepo` struct: its single field is the backing map. -/
structure inMemoryRepo where
  articles : List (String × Article)
deriving DecidableEq, Repr

/-- `newInMemoryRepo` allocates an empty map. -/
def newInMemoryRepo : inMemoryRepo := ⟨[]⟩

namespace inMemoryRepo

/-- `repo.articles[article.ID] = article; return nil` — unconditional
store, never fails. -/
def InsertArticle (repo : inMemoryRepo) (article : Article) :
    inMemoryRepo × Option GoError :=
  (⟨mapSet repo.articles article.id article⟩, none)

/-- Returns `ErrArticleNotFound` when no entry exists at `article.ID`,
otherwise overwrites the entry. -/
def UpdateArticle (repo : inMemoryRepo) (article : Article) :
    inMemoryRepo × Option GoError :=
  match mapGet repo.articles article.id with
  | none => (repo, some GoError.articleNotFound)
  | some _ => (⟨mapSet repo.articles article.id article⟩, none)

/-- `delete(repo.articles, id); return nil` — removes the entry when
present, never fails. -/
def DeleteArticle (repo : inMemoryRepo) (id : String) :
    inMemoryRepo × Option GoError :=
  (⟨mapDelete repo.articles id⟩, none)

/-- Returns the stored article, or `(nil, ErrArticleNotFound)` when the
id is absent. -/
def ArticleByID (repo : inMemoryRepo) (id : String) :
    Option Article × Option GoError :=
  match mapGet repo.articles id with
  | none => (none, some GoError.articleNotFound)
  | some a => (some a, none)

/-- Collects every stored article by ranging over the map; never fails. -/
def AllArticles (repo : inMemoryRepo) : List Article × Option GoError :=
  (repo.articles.map Prod.snd, none)

end inMemoryRepo

/-- A call the service makes into the repository; recorded so that
"does not call insert" is a provable statement. -/
inductive RepoCall where
  | fetchCall (id : String)
  | insertCall (article : Article)
deriving DecidableEq, Repr

namespace articleSvc

/-- `articleSvc.AddArticle`, instantiated with the in-memory repository:
fetches by `article.ID`; when that returns a non-nil article and a nil
error it fails with the "article already exists" error, otherwise it
returns the result of `InsertArticle`. The third component records the
repository calls made, in order. -/
def AddArticle (repo : inMemoryRepo) (article : Article) :
    inMemoryRepo × Option GoError × List RepoCall :=
  match repo.ArticleByID article.id with
  | (some _, none) =>
      (repo, some GoError.articleAlreadyExists, [RepoCall.fetchCall article.id])
  | _ =>
      let r := repo.InsertArticle article
      (r.1, r.2, [RepoCall.fetchCall article.id, RepoCall.insertCall article])

/-- `articleSvc.UpdateArticle` — pass-through to the repository. -/
def UpdateArticle (repo : inMemoryRepo) (article : Article) :
    inMemoryRepo × Option GoError :=
  repo.UpdateArticle article

end articleSvc

/-- A write performed on the `http.ResponseWriter`. -/
inductive WriteEvent where
  | writeHeader (status : Nat)
  | writeString (s : String)
deriving DecidableEq, Repr

/-- The zero value of `Article` in Go: empty strings, nil tags, zero
timestamp. After a failed `json.Decode`, the handler's local `article`
variable keeps this value. -/
def zeroArticle : Article :=
  { id := "", title := "", tags := [], content := "", publishAt := 0 }

/-- `err.Error()` for the two program errors. -/
def errorMessage : GoError → String
  | GoError.articleNotFound => "article not found"
  | GoError.articleAlreadyExists => "article already exists"

namespace articlesHttpTransport

/-- The `PUT /articles` handler. The request body is modelled as
`Option Article`: `none` when `json.Decode` fails. On decode failure the
handler writes a 400 response but (as in the source, which lacks a
`return`) continues with the zero-valued article. It then always calls
the service, writing 500 plus the error message on failure and 200 "ok"
on success. Returns the writes, the article handed to the service, and
the resulting repository. -/
def addArticle (repo : inMemoryRepo) (body : Option Article) :
    List WriteEvent × Article × inMemoryRepo :=
  let decoded : List WriteEvent × Article :=
    match body with
    | none =>
        ([WriteEvent.writeHeader 400, WriteEvent.writeString "bad request"],
         zeroArticle)
    | some a => ([], a)
  let article := decoded.2
  let call := articleSvc.AddArticle repo article
  match call.2.1 with
  | some e =>
      (decoded.1 ++ [WriteEvent.writeHeader 500, WriteEvent.writeString (errorMessage e)],
       article, call.1)
  | none =>
      (decoded.1 ++ [WriteEvent.writeHeader 200, WriteEvent.writeString "ok"],
       article, call.1)

/-- The `PUT /articles/{id}` handler. Decodes the body (same fallthrough
on failure as `addArticle`), then overwrites the decoded article's id
with the `{id}` path variable before calling the service's update. -/
def updateArticle (repo : inMemoryRepo) (pathID : String) (body : Option Article) :
    List WriteEvent × Article × inMemoryRepo :=
  let decoded : List WriteEvent × Article :=
    match body with
    | none =>
        ([WriteEvent.writeHeader 400, WriteEvent.writeString "bad request"],
         zeroArticle)
    | some a => ([], a)
  let article : Article := { decoded.2 with id := pathID }
  let call := articleSvc.UpdateArticle repo article
  match call.2 with
  | some e =>
      (decoded.1 ++ [WriteEvent.writeHeader 500, WriteEvent.writeString (errorMessage e)],
       article, call.1)
  | none =>
      (decoded.1 ++ [WriteEvent.writeHeader 200, WriteEvent.writeString "ok"],
       article, call.1)

/-- The `GET /articles/{id}` handler as it stands in the source: its
body is empty, so it performs no writes and leaves the repository
untouched (the Go HTTP server then sends an implicit 200 with an empty
body). -/
def articleByID (repo : inMemoryRepo) (_pathID : String) :
    List WriteEvent × inMemoryRepo :=
  ([], repo)

end articlesHttpTransport

/-- A repository-level operation, for stating reachability invariants. -/
inductive RepoOp where
  | insertOp (article : Article)
  | updateOp (article : Article)
  | deleteOp (id : String)
deriving DecidableEq, Repr

/-- Apply one repository operation to the state (discarding the error). -/
def applyOp (repo : inMemoryRepo) : RepoOp → inMemoryRepo
  | RepoOp.insertOp a => (repo.InsertArticle a).1
  | RepoOp.updateOp a => (repo.UpdateArticle a).1
  | RepoOp.deleteOp i => (repo.DeleteArticle i).1

/-- Run a sequence of repository operations from a starting state. -/
def runOps (repo : inMemoryRepo) : List RepoOp → inMemoryRepo
  | [] => repo
  | op :: rest => runOps (applyOp repo op) rest

/-- The map invariant: keys are pairwise distinct (at most one stored
article per id) and every stored article's id equals its key. -/
def goodMap (m : List (String × Article)) : Prop :=
  (m.map Prod.fst).Nodup ∧ ∀ p ∈ m, p.2.id = p.1

/-- Insert each article of the list in turn, via the repository's
`InsertArticle`. -/
def insertAll (repo : inMemoryRepo) : List Article → inMemoryRepo
  | [] => repo
  | a :: rest => insertAll (repo.InsertArticle a).1 rest

/-! ### Lemmas about the map model -/

theorem mapGet_mapSet_self (m : List (String × Article)) (k : String) (v : Article) :
    mapGet (mapSet m k v) k = some v := by
  induction m with
  | nil => simp [mapGet, mapSet]
  | cons p rest ih =>
      obtain ⟨k', v'⟩ := p
      by_cases h : k' = k
      · simp [mapSet, mapGet, h]
      · simp [mapSet, mapGet, h, ih]

theorem mapGet_mapSet_ne (m : List (String × Article)) (k k₁ : String) (v : Article)
    (h : k₁ ≠ k) : mapGet (mapSet m k v) k₁ = mapGet m k₁ := by
  induction m with
  | nil => simp [mapGet, mapSet, Ne.symm h]
  | cons p rest ih =>
      obtain ⟨k', v'⟩ := p
      by_cases hk : k' = k
      · subst hk
        simp [mapSet, mapGet, Ne.symm h]
      · simp only [mapSet, if_neg hk, mapGet]
        by_cases hk₁ : k' = k₁ <;> simp [hk₁, ih]

theorem mapGet_mapDelete_self (m : List (String × Article)) (k : String) :
    mapGet (mapDelete m k) k = none := by
  induction m with
  | nil => simp [mapGet, mapDelete]
  | cons p rest ih =>
      obtain ⟨k', v'⟩ := p
      by_cases h : k' = k
      · simp [mapDelete, h, ih]
      · simp [mapDelete, mapGet, h, ih]

theorem mapDelete_sublist (m : List (String × Article)) (k : String) :
    (mapDelete m k).Sublist m := by
  induction m with
  | nil => simp [mapDelete]
  | cons p rest ih =>
      obtain ⟨k', v'⟩ := p
      by_cases h : k' = k
      · simpa [mapDelete, h] using ih.cons (k', v')
      · simpa [mapDelete, h] using ih.cons₂ (k', v')

theorem mapDelete_eq_of_none (m : List (String × Article)) (k : String)
    (h : mapGet m k = none) : mapDelete m k = m := by
  induction m with
  | nil => simp [mapDelete]
  | cons p rest ih =>
      obtain ⟨k', v'⟩ := p
      by_cases hk : k' = k
      · simp [mapGet, hk] at h
      · simp only [mapGet, if_neg hk] at h
        simp [mapDelete, hk, ih h]

theorem mem_mapDelete (m : List (String × Article)) (k : String) (p : String × Article)
    (h : p ∈ mapDelete m k) : p ∈ m ∧ p.1 ≠ k := by
  induction m with
  | nil => simp [mapDelete] at h
  | cons q rest ih =>
      obtain ⟨k', v'⟩ := q
      by_cases hk : k' = k
      · simp only [mapDelete, if_pos hk] at h
        exact ⟨List.mem_cons_of_mem _ (ih h).1, (ih h).2⟩
      · simp only [mapDelete, if_neg hk, List.mem_cons] at h
        rcases h with h | h
        · subst h
          exact ⟨List.mem_cons_self _ _, hk⟩
        · exact ⟨List.mem_cons_of_mem _ (ih h).1, (ih h).2⟩

theorem mapSet_eq_append (m : List (String × Article)) (k : String) (v : Article)
    (h : mapGet m k = none) : mapSet m k v = m ++ [(k, v)] := by
  induction m with
  | nil => simp [mapSet]
  | cons p rest ih =>
      obtain ⟨k', v'⟩ := p
      by_cases hk : k' = k
      · simp [mapGet, hk] at h
      · simp only [mapGet, if_neg hk] at h
        simp [mapSet, hk, ih h]

theorem mapGet_append_of_none (m₁ m₂ : List (String × Article)) (k : String)
    (h : mapGet m₁ k = none) : mapGet (m₁ ++ m₂) k = mapGet m₂ k := by
  induction m₁ with
  | nil => simp
  | cons p rest ih =>
      obtain ⟨k', v'⟩ := p
      by_cases hk : k' = k
      · simp [mapGet, hk] at h
      · simp only [mapGet, if_neg hk] at h
        simp [mapGet, hk, ih h]

theorem keys_mapSet_mem (m : List (String × Article)) (k : String) (v : Article)
    (h : k ∈ m.map Prod.fst) :
    (mapSet m k v).map Prod.fst = m.map Prod.fst := by
  induction m with
  | nil => simp at h
  | cons p rest ih =>
      obtain ⟨k', v'⟩ := p
      by_cases hk : k' = k
      · simp [mapSet, hk]
      · simp only [List.map_cons, List.mem_cons] at h
        rcases h with h | h
        · exact absurd h.symm hk
        · simp [mapSet, hk, ih h]

theorem mem_mapSet (m : List (String × Article)) (k : String) (v : Article)
    (p : String × Article) (h : p ∈ mapSet m k v) : p ∈ m ∨ p = (k, v) := by
  induction m with
  | nil => simp [mapSet] at h; simp [h]
  | cons q rest ih =>
      obtain ⟨k', v'⟩ := q
      by_cases hk : k' = k
      · simp only [mapSet, if_pos hk, List.mem_cons] at h
        rcases h with h | h
        · exact Or.inr h
        · exact Or.inl (List.mem_cons_of_mem _ h)
      · simp only [mapSet, if_neg hk, List.mem_cons] at h
        rcases h with h | h
        · exact Or.inl (by simp [h])
        · rcases ih h with h' | h'
          · exact Or.inl (List.mem_cons_of_mem _ h')
          · exact Or.inr h'

theorem mapGet_eq_none_iff (m : List (String × Article)) (k : String) :
    mapGet m k = none ↔ k ∉ m.map Prod.fst := by
  induction m with
  | nil => simp [mapGet]
  | cons p rest ih =>
      obtain ⟨k', v'⟩ := p
      by_cases hk : k' = k
      · simp [mapGet, hk]
      · simp [mapGet, hk, ih, not_or, Ne.symm hk]

/-! ### Concrete sample data for witnesses -/

/-- A sample article with id "a1". -/
def art1 : Article :=
  { id := "a1", title := "T", tags := ["x", "y"], content := "C", publishAt := 1 }

/-- A second, different article that reuses id "a1". -/
def art2 : Article :=
  { id := "a1", title := "U", tags := [], content := "D", publishAt := 2 }

/-- A sample article with the fresh id "b2". -/
def art3 : Article :=
  { id := "b2", title := "V", tags := ["z"], content := "E", publishAt := 3 }

/-- A repository already holding `art1` under its id. -/
def repo1 : inMemoryRepo := ⟨[("a1", art1)]⟩

/-! ### The claims -/

/-- C1: for every repository state and every article whose id is already
present, the service's `AddArticle` fails with the already-exists error,
leaves the state unchanged (its only repository call is the fetch — it
never calls insert), and the stored article at that id is still the one
stored before the call. -/
theorem addArticle_on_existing_id (repo : inMemoryRepo) (article b : Article)
    (h : mapGet repo.articles article.id = some b) :
    articleSvc.AddArticle repo article =
      (repo, some GoError.articleAlreadyExists, [RepoCall.fetchCall article.id]) ∧
    mapGet (articleSvc.AddArticle repo article).1.articles article.id = some b := by
  have h1 : repo.ArticleByID article.id = (some b, none) := by
    simp [inMemoryRepo.ArticleByID, h]
  constructor
  · simp [articleSvc.AddArticle, h1]
  · simp [articleSvc.AddArticle, h1, h]

/-- Witness for C1 at a concrete input: `repo1` stores `art1` at id
"a1", and adding `art2` (same id) fails, leaving `art1` stored. -/
theorem addArticle_on_existing_id_witness :
    mapGet repo1.articles art2.id = some art1 ∧
    articleSvc.AddArticle repo1 art2 =
      (repo1, some GoError.articleAlreadyExists, [RepoCall.fetchCall art2.id]) ∧
    mapGet (articleSvc.AddArticle repo1 art2).1.articles art2.id = some art1 :=
  ⟨by decide, addArticle_on_existing_id repo1 art2 art1 (by decide)⟩

/-- C2: the repository's `UpdateArticle` fails with `ErrArticleNotFound`
and leaves the state exactly unchanged when the id is absent; when the id
is present it overwrites that entry with the given article and touches no
other key. -/
theorem updateArticle_not_found_or_overwrite (repo : inMemoryRepo) (article : Article) :
    (mapGet repo.articles article.id = none →
      repo.UpdateArticle article = (repo, some GoError.articleNotFound)) ∧
    (∀ b, mapGet repo.articles article.id = some b →
      (repo.UpdateArticle article).2 = none ∧
      mapGet (repo.UpdateArticle article).1.articles article.id = some article ∧
      ∀ k, k ≠ article.id →
        mapGet (repo.UpdateArticle article).1.articles k = mapGet repo.articles k) := by
  constructor
  · intro h
    simp [inMemoryRepo.UpdateArticle, h]
  · intro b h
    refine ⟨?_, ?_, ?_⟩
    · simp [inMemoryRepo.UpdateArticle, h]
    · simp [inMemoryRepo.UpdateArticle, h, mapGet_mapSet_self]
    · intro k hk
      simp [inMemoryRepo.UpdateArticle, h, mapGet_mapSet_ne _ _ _ _ hk]

/-- Witness for C2 at concrete inputs: updating the absent id "b2" in
`repo1` fails and leaves the state unchanged; updating the present id
"a1" with `art2` succeeds and stores `art2`. -/
theorem updateArticle_not_found_or_overwrite_witness :
    (mapGet repo1.articles art3.id = none ∧
     repo1.UpdateArticle art3 = (repo1, some GoError.articleNotFound)) ∧
    (mapGet repo1.articles art2.id = some art1 ∧
     (repo1.UpdateArticle art2).2 = none ∧
     mapGet (repo1.UpdateArticle art2).1.articles art2.id = some art2) :=
  ⟨⟨by decide, (updateArticle_not_found_or_overwrite repo1 art3).1 (by decide)⟩,
   by decide,
   ((updateArticle_not_found_or_overwrite repo1 art2).2 art1 (by decide)).1,
   ((updateArticle_not_found_or_overwrite repo1 art2).2 art1 (by decide)).2.1⟩

/-- C3: for every repository state and every article whose id is not yet
present, adding it through the service succeeds, and fetching by that id
afterwards returns exactly the inserted article (structural equality, so
every field — id, title, tags with order and duplicates, content and
publishAt — matches). -/
theorem addArticle_fresh_then_fetch (repo : inMemoryRepo) (article : Article)
    (h : mapGet repo.articles article.id = none) :
    (articleSvc.AddArticle repo article).2.1 = none ∧
    (articleSvc.AddArticle repo article).1.ArticleByID article.id = (some article, none) := by
  constructor
  · simp [articleSvc.AddArticle, inMemoryRepo.ArticleByID, h, inMemoryRepo.InsertArticle]
  · simp [articleSvc.AddArticle, inMemoryRepo.ArticleByID, h, inMemoryRepo.InsertArticle,
      mapGet_mapSet_self]

/-- Witness for C3 at a concrete input: adding `art1` to the empty
repository and fetching id "a1" returns `art1`. -/
theorem addArticle_fresh_then_fetch_witness :
    mapGet newInMemoryRepo.articles art1.id = none ∧
    (articleSvc.AddArticle newInMemoryRepo art1).2.1 = none ∧
    (articleSvc.AddArticle newInMemoryRepo art1).1.ArticleByID art1.id = (some art1, none) :=
  ⟨by decide, addArticle_fresh_then_fetch newInMemoryRepo art1 (by decide)⟩

/-- C5: on a PUT /articles request whose body fails to decode, the
handler first writes the 400 response ("bad request"), yet does not
stop: it performs further writes and still calls the service's
`AddArticle` with the zero-valued article (empty id, empty title, nil
tags, empty content, zero timestamp), the repository becoming whatever
that service call produces. -/
theorem addArticle_handler_decode_fallthrough (repo : inMemoryRepo) :
    (articlesHttpTransport.addArticle repo none).1.take 2 =
      [WriteEvent.writeHeader 400, WriteEvent.writeString "bad request"] ∧
    2 < (articlesHttpTransport.addArticle repo none).1.length ∧
    (articlesHttpTransport.addArticle repo none).2.1 =
      { id := "", title := "", tags := [], content := "", publishAt := 0 } ∧
    (articlesHttpTransport.addArticle repo none).2.2 =
      (articleSvc.AddArticle repo zeroArticle).1 := by
  have hz : ({ id := "", title := "", tags := [], content := "", publishAt := 0 } : Article) =
      zeroArticle := rfl
  rw [hz]
  unfold articlesHttpTransport.addArticle
  cases hc : (articleSvc.AddArticle repo zeroArticle).2.1 with
  | none => simp [hc]
  | some e => simp [hc]

/-- C8: on a PUT /articles/{id} request with a decodable body, the
article handed to the service's update has its id equal to the path
segment — whatever id the body carried — and every other field taken
from the body. -/
theorem updateArticle_handler_path_id (repo : inMemoryRepo) (pathID : String) (a : Article) :
    (articlesHttpTransport.updateArticle repo pathID (some a)).2.1 =
      { id := pathID, title := a.title, tags := a.tags,
        content := a.content, publishAt := a.publishAt } := by
  unfold articlesHttpTransport.updateArticle
  cases hc : (articleSvc.UpdateArticle repo { a with id := pathID }).2 with
  | none => simp [hc]
  | some e => simp [hc]

/-- C10: with the in-memory repository, the service's `AddArticle`
returns the already-exists error exactly when the id is already stored
and no error otherwise: the `ErrArticleNotFound` from the existence
check is swallowed (treated as absence), and the `InsertArticle` that
follows never fails. -/
theorem addArticle_error_characterisation (repo : inMemoryRepo) (article : Article) :
    (articleSvc.AddArticle repo article).2.1 =
      (if (mapGet repo.articles article.id).isSome
       then some GoError.articleAlreadyExists else none) ∧
    (repo.InsertArticle article).2 = none := by
  cases h : mapGet repo.articles article.id with
  | none =>
      simp [articleSvc.AddArticle, inMemoryRepo.ArticleByID, h,
        inMemoryRepo.InsertArticle]
  | some b =>
      simp [articleSvc.AddArticle, inMemoryRepo.ArticleByID, h,
        inMemoryRepo.InsertArticle]

/-- C4 (the claim as stated fails on the source): the source's
GET /articles/{id} handler body is empty, so for every repository state
and every path id it performs no write at all and leaves the repository
untouched — it never writes a 200 response carrying the stored article
as JSON, and never a 404 when the id is absent; the Go HTTP server then
sends an implicit 200 with an empty body either way. -/
theorem articleByID_handler_writes_nothing (repo : inMemoryRepo) (pathID : String) :
    (articlesHttpTransport.articleByID repo pathID).1 = [] ∧
    (articlesHttpTransport.articleByID repo pathID).2 = repo :=
  ⟨rfl, rfl⟩

/-- C6: the repository's `DeleteArticle` always succeeds: when the id is
absent it leaves the state exactly unchanged, and in every case a
subsequent fetch by that id fails with `ErrArticleNotFound` and a
subsequent `AllArticles` contains no article with that id (using the
store invariant that stored ids match their keys). -/
theorem deleteArticle_idempotent_removal (repo : inMemoryRepo) (id : String)
    (hg : goodMap repo.articles) :
    (repo.DeleteArticle id).2 = none ∧
    (mapGet repo.articles id = none → (repo.DeleteArticle id).1 = repo) ∧
    (repo.DeleteArticle id).1.ArticleByID id = (none, some GoError.articleNotFound) ∧
    ∀ a ∈ ((repo.DeleteArticle id).1.AllArticles).1, a.id ≠ id := by
  refine ⟨rfl, ?_, ?_, ?_⟩
  · intro h
    simp [inMemoryRepo.DeleteArticle, mapDelete_eq_of_none _ _ h]
  · simp [inMemoryRepo.DeleteArticle, inMemoryRepo.ArticleByID, mapGet_mapDelete_self]
  · intro a ha
    simp only [inMemoryRepo.DeleteArticle, inMemoryRepo.AllArticles, List.mem_map] at ha
    obtain ⟨p, hp, hpa⟩ := ha
    have h1 := mem_mapDelete _ _ _ hp
    have h2 := hg.2 p h1.1
    rw [← hpa, h2]
    exact h1.2

/-- Witness for C6 at concrete inputs: deleting "a1" from `repo1`
succeeds, a subsequent fetch of "a1" fails, and deleting the absent id
"b2" leaves the state unchanged. -/
theorem deleteArticle_idempotent_removal_witness :
    goodMap repo1.articles ∧
    (repo1.DeleteArticle "a1").2 = none ∧
    (repo1.DeleteArticle "a1").1.ArticleByID "a1" = (none, some GoError.articleNotFound) ∧
    (repo1.DeleteArticle "b2").1 = repo1 :=
  ⟨⟨by decide, by decide⟩,
   (deleteArticle_idempotent_removal repo1 "a1" ⟨by decide, by decide⟩).1,
   (deleteArticle_idempotent_removal repo1 "a1" ⟨by decide, by decide⟩).2.2.1,
   (deleteArticle_idempotent_removal repo1 "b2" ⟨by decide, by decide⟩).2.1 (by decide)⟩

/-- Inserting articles whose ids are fresh for the map and pairwise
distinct appends their (id, article) pairs in order. -/
theorem insertAll_eq_append (arts : List Article) (m : List (String × Article))
    (hfresh : ∀ a ∈ arts, mapGet m a.id = none)
    (hnodup : (arts.map Article.id).Nodup) :
    (insertAll ⟨m⟩ arts).articles = m ++ arts.map (fun a => (a.id, a)) := by
  induction arts generalizing m with
  | nil => simp [insertAll]
  | cons a rest ih =>
      have hm : mapGet m a.id = none := hfresh a (List.mem_cons_self _ _)
      have hstep : insertAll (⟨m⟩ : inMemoryRepo) (a :: rest) =
          insertAll ⟨m ++ [(a.id, a)]⟩ rest := by
        simp [insertAll, inMemoryRepo.InsertArticle, mapSet_eq_append _ _ _ hm]
      have hnodup' : (rest.map Article.id).Nodup ∧ a.id ∉ rest.map Article.id := by
        simp only [List.map_cons, List.nodup_cons] at hnodup
        exact ⟨hnodup.2, hnodup.1⟩
      have hfresh' : ∀ b ∈ rest, mapGet (m ++ [(a.id, a)]) b.id = none := by
        intro b hb
        have hbm : mapGet m b.id = none := hfresh b (List.mem_cons_of_mem _ hb)
        have hne : a.id ≠ b.id := by
          intro hEq
          exact hnodup'.2 (hEq ▸ List.mem_map_of_mem Article.id hb)
        rw [mapGet_append_of_none _ _ _ hbm]
        simp [mapGet, hne]
      rw [hstep, ih _ hfresh' hnodup'.1]
      simp

/-- C7: inserting any list of articles with pairwise distinct ids into
the empty repository makes `AllArticles` return exactly that many
articles, and the returned list is a permutation of the inserted one
(each inserted article is returned once, unchanged, in some order). -/
theorem allArticles_after_distinct_inserts (arts : List Article)
    (hnodup : (arts.map Article.id).Nodup) :
    ((insertAll newInMemoryRepo arts).AllArticles).1.length = arts.length ∧
    ((insertAll newInMemoryRepo arts).AllArticles).1.Perm arts := by
  have h := insertAll_eq_append arts [] (by intro a _; rfl) hnodup
  have h2 : ((insertAll newInMemoryRepo arts).AllArticles).1 = arts := by
    show ((insertAll ⟨[]⟩ arts).AllArticles).1 = arts
    rw [inMemoryRepo.AllArticles, h]
    simp only [List.nil_append, List.map_map]
    have hcomp : (Prod.snd ∘ fun a : Article => (a.id, a)) = id := rfl
    rw [hcomp, List.map_id]
  rw [h2]
  exact ⟨rfl, List.Perm.refl arts⟩

/-- Witness for C7 at a concrete input: inserting `art1` and `art3`
(distinct ids) into the empty repository yields a 2-element listing that
is a permutation of the two inserted articles. -/
theorem allArticles_after_distinct_inserts_witness :
    (([art1, art3]).map Article.id).Nodup ∧
    ((insertAll newInMemoryRepo [art1, art3]).AllArticles).1.length = 2 ∧
    ((insertAll newInMemoryRepo [art1, art3]).AllArticles).1.Perm [art1, art3] :=
  ⟨by decide, allArticles_after_distinct_inserts [art1, art3] (by decide)⟩

/-- `mapSet` at key `v.id` preserves the store invariant. -/
theorem goodMap_mapSet (m : List (String × Article)) (v : Article)
    (hg : goodMap m) : goodMap (mapSet m v.id v) := by
  constructor
  · by_cases h : v.id ∈ m.map Prod.fst
    · rw [keys_mapSet_mem _ _ _ h]
      exact hg.1
    · rw [mapSet_eq_append _ _ _ ((mapGet_eq_none_iff _ _).mpr h)]
      simp [List.nodup_append, hg.1, h]
  · intro p hp
    rcases mem_mapSet _ _ _ _ hp with h | h
    · exact hg.2 p h
    · rw [h]

/-- `mapDelete` preserves the store invariant. -/
theorem goodMap_mapDelete (m : List (String × Article)) (k : String)
    (hg : goodMap m) : goodMap (mapDelete m k) := by
  constructor
  · exact List.Nodup.sublist ((mapDelete_sublist m k).map Prod.fst) hg.1
  · intro p hp
    exact hg.2 p (mem_mapDelete _ _ _ hp).1

/-- Every single repository operation preserves the store invariant. -/
theorem goodMap_applyOp (repo : inMemoryRepo) (op : RepoOp)
    (hg : goodMap repo.articles) : goodMap (applyOp repo op).articles := by
  cases op with
  | insertOp a =>
      simpa [applyOp, inMemoryRepo.InsertArticle] using goodMap_mapSet _ a hg
  | updateOp a =>
      cases h : mapGet repo.articles a.id with
      | none => simpa [applyOp, inMemoryRepo.UpdateArticle, h] using hg
      | some b =>
          simpa [applyOp, inMemoryRepo.UpdateArticle, h] using goodMap_mapSet _ a hg
  | deleteOp i =>
      simpa [applyOp, inMemoryRepo.DeleteArticle] using goodMap_mapDelete _ i hg

/-- Any run of operations from an invariant-respecting state ends in an
invariant-respecting state. -/
theorem goodMap_runOps (ops : List RepoOp) (repo : inMemoryRepo)
    (hg : goodMap repo.articles) : goodMap (runOps repo ops).articles := by
  induction ops generalizing repo with
  | nil => simpa [runOps] using hg
  | cons op rest ih =>
      rw [runOps]
      exact ih _ (goodMap_applyOp repo op hg)

/-- C9: in every state reachable from the empty store by inserts,
updates and deletes, the map's keys are pairwise distinct (at most one
stored article per id) and every stored article's id equals the key it
is stored under. -/
theorem repo_invariant_reachable (ops : List RepoOp) :
    ((runOps newInMemoryRepo ops).articles.map Prod.fst).Nodup ∧
    ∀ p ∈ (runOps newInMemoryRepo ops).articles, p.2.id = p.1 :=
  goodMap_runOps ops newInMemoryRepo ⟨List.nodup_nil, by intro p hp; cases hp⟩

end QuirkyThoughts
